import Mathlib

/-
Verification of the public-law download/extract pipeline in
src/data/get_data_bulk.py.

The script is a three-stage sequential batch pipeline:
  stage 1  get_bulk_public_laws      : fetch per-congress bulk manifests
  stage 2  get_individual_laws       : fetch the individual law XML files
  stage 3  process_individual_laws   : extract plain text from each XML file

We embed the script shallowly:
  * the filesystem caches become finite maps (String to Option String) plus
    explicit directory-listing orders (the name lists), since Python's
    os.listdir enumerates a directory;
  * external collaborators (requests.get, json.load, ET.parse) become the
    fields of an Env record;
  * every call to the rate-limited call_api is logged in World.fetched and
    every file write in World.writes, so that claims about "no fetch occurs"
    or "the stage skips work" are expressible;
  * a raised Python exception becomes a (World, some errorMessage) result;
    the runSteps driver stops at the first error exactly as an uncaught
    exception aborts the Python loops.

Several Lean core String operations do not reduce in the kernel, so the
handful of Python string operations the script uses (endswith, upper,
strip-blank test, split on a one-character separator, str.replace) are given
structural implementations over the character list of the string; each one
is documented next to its definition.
-/

/-- Models Python str.endswith: the pattern is a suffix of the string. -/
def strEndsWith (s suffix : String) : Bool :=
  suffix.data.isSuffixOf s.data

/-- Models Python str.upper (ASCII case mapping, as used by the script). -/
def strUpper (s : String) : String :=
  String.mk (s.data.map Char.toUpper)

/-- Models Python s.strip() == "": every character is whitespace. -/
def strBlank (s : String) : Bool :=
  s.data.all Char.isWhitespace

/-- Models Python str.split(sep) for a one-character separator sep
(empty segments are kept, and the result is never empty). -/
def splitChar (sep : Char) : List Char → List (List Char)
  | [] => [[]]
  | c :: cs =>
    match splitChar sep cs with
    | [] => [[]]
    | g :: gs => if c = sep then [] :: g :: gs else (c :: g) :: gs

/-- Helper for pyReplace: replace occurrences of pat left to right,
non-overlapping; the fuel argument (instantiated with the input length)
only makes the recursion structural. -/
def pyReplaceFuel (pat rep : List Char) : Nat → List Char → List Char
  | 0, l => l
  | _ + 1, [] => []
  | fuel + 1, c :: cs =>
    if pat.isPrefixOf (c :: cs) ∧ pat ≠ [] then
      rep ++ pyReplaceFuel pat rep fuel ((c :: cs).drop pat.length)
    else
      c :: pyReplaceFuel pat rep fuel cs

/-- Models Python str.replace(pat, rep): every non-overlapping occurrence of
pat, scanning left to right, is replaced by rep. -/
def pyReplace (s pat rep : String) : String :=
  String.mk (pyReplaceFuel pat.data rep.data s.data.length s.data)

/-- An XML element as exposed by xml.etree.ElementTree: a tag, the direct
text before the first child (element.text), the tail text after the closing
tag (element.tail, belonging to the parent context), and the child elements
in document order. -/
inductive XmlTree where
  | elem (tag : String) (text : Option String) (tail : Option String)
      (children : List XmlTree)

def XmlTree.tag : XmlTree → String
  | .elem t _ _ _ => t

def XmlTree.text : XmlTree → Option String
  | .elem _ tx _ _ => tx

def XmlTree.tail : XmlTree → Option String
  | .elem _ _ tl _ => tl

def XmlTree.children : XmlTree → List XmlTree
  | .elem _ _ _ ch => ch

mutual
/-- Models root.iter(): the element itself followed by all descendants,
depth-first, in document order (get_data_bulk.py line 181). -/
def iterTree : XmlTree → List XmlTree
  | .elem tg tx tl ch => XmlTree.elem tg tx tl ch :: iterForest ch
/-- Document-order traversal of a list of sibling elements. -/
def iterForest : List XmlTree → List XmlTree
  | [] => []
  | c :: cs => iterTree c ++ iterForest cs
end

/-- The ignore_sections list of get_data_bulk.py lines 141-167, verbatim
(including the duplicated "language" and "format" entries). -/
def ignore_sections : List String :=
  ["actionDescription", "toc", "designator", "label", "referenceItem",
   "num", "citableAs", "approvedDate", "publisher", "creator", "format",
   "language", "rights", "congress", "docNumber", "ref", "committee",
   "type", "language", "format", "page", "processedBy", "processedDate",
   "publicPrivate", "endMarker"]

/-- The three XML namespace qualifiers of get_data_bulk.py lines 170-174:
the uslm legal-document schema namespace and the two Dublin Core
namespaces, each in ElementTree's brace-wrapped form. -/
def nsQualifiers : List String :=
  ["\x7bhttp://schemas.gpo.gov/xml/uslm\x7d",
   "\x7bhttp://purl.org/dc/elements/1.1/\x7d",
   "\x7bhttp://purl.org/dc/terms/\x7d"]

/-- ignore_sections_prefixed of get_data_bulk.py lines 169-176: every bare
tag name qualified by each of the three namespaces (the Python set is
modelled as a list used only through membership). -/
def ignore_sections_prefixed : List String :=
  (nsQualifiers.map (fun p => ignore_sections.map (fun s => p ++ s))).flatten

/-- The body of the collection loop (get_data_bulk.py lines 181-191): an
element contributes its direct text when its tag is not in the exclusion
set and the text is present (Python truthiness: not None and not the empty
string) and not whitespace-only.  The tail is never consulted. -/
def keepText (e : XmlTree) : Option String :=
  if ignore_sections_prefixed.contains e.tag then none
  else
    match e.text with
    | none => none
    | some tx =>
      if tx = "" then none
      else if strBlank tx then none
      else some tx

/-- inner_texts of get_data_bulk.py lines 180-191: the kept direct texts of
all elements in document order. -/
def collectTexts (root : XmlTree) : List String :=
  (iterTree root).filterMap keepText

/-- The scan of get_data_bulk.py lines 195-199: the index of the first
entry whose upper-cased value equals "LEGISLATIVE HISTORY". -/
def legislativeHistoryIndex (texts : List String) : Option Nat :=
  texts.findIdx? (fun t => strUpper t == "LEGISLATIVE HISTORY")

/-- The truncation of get_data_bulk.py lines 200-201.  The Python guard is
the truthiness test "if legislative_history_index:", which treats index 0
exactly like "not found", so truncation happens only at a non-zero index. -/
def truncateAtLegislativeHistory (texts : List String) : List String :=
  match legislativeHistoryIndex texts with
  | none => texts
  | some i => if i = 0 then texts else texts.take i

/-- The persisted text (get_data_bulk.py line 203): the surviving segments
joined with single newline separators. -/
def extractText (root : XmlTree) : String :=
  String.intercalate "\n" (truncateAtLegislativeHistory (collectTexts root))

/-- The output filename (get_data_bulk.py line 208): Python
str.replace(".xml", ".txt"), which replaces every occurrence. -/
def txtName (f : String) : String :=
  pyReplace f ".xml" ".txt"

/-- An HTTP response as the script consumes it: status code and body text. -/
structure Response where
  status : Nat
  body : String

/-- One manifest entry (name and link keys of the bulk JSON). -/
structure LawInfo where
  name : String
  link : String

/-- The external collaborators of the script: the HTTP transport behind
requests.get, the JSON decoding behind json.load(...)["files"], and the XML
parser behind ET.parse (none when parsing raises ParseError). -/
structure Env where
  net : String → Response
  parseManifest : String → List LawInfo
  parseXml : String → Option XmlTree

/-- The observable state of a run: the three cache directories (content map
plus listing order), the log of URLs passed to call_api, and the log of
file writes. -/
structure World where
  bulk : String → Option String
  bulkNames : List String
  ind : String → Option String
  indNames : List String
  processed : String → Option String
  fetched : List String
  writes : List String

/-- call_api of get_data_bulk.py lines 41-45: issue the request and record
that a fetch happened (the rate limiting itself is modelled separately by
rateLimitedCompletion). -/
def call_api (env : Env) (w : World) (url : String) : World × Response :=
  ({ w with fetched := w.fetched ++ [url] }, env.net url)

/-- Sequential driver of a Python for-loop whose body may raise: run the
step on each item in order and stop at the first error, exactly as an
uncaught exception aborts the loop. -/
def runSteps {α : Type} (f : α → World → World × Option String) :
    List α → World → World × Option String
  | [], w => (w, none)
  | a :: as, w =>
    match f a w with
    | (w1, none) => runSteps f as w1
    | (w1, some e) => (w1, some e)

/-- The bulk endpoint URL (get_data_bulk.py line 36) with the congress
number substituted. -/
def bulk_data_endpoint (congress : Nat) : String :=
  "https://www.govinfo.gov/bulkdata/json/PLAW/" ++ toString congress ++ "/public"

/-- The manifest cache filename for a congress (get_data_bulk.py line 54). -/
def manifestFileName (congress : Nat) : String :=
  "plaw_" ++ toString congress ++ ".json"

/-- The iteration domain range(113, 119) (get_data_bulk.py line 66). -/
def congresses : List Nat :=
  List.range' 113 6

/-- save_public_laws (get_data_bulk.py lines 48-55): persist the response
body verbatim to the manifest cache path. -/
def save_public_laws (congress : Nat) (response : Response) (w : World) : World :=
  { w with
    bulk := fun x =>
      if x = manifestFileName congress then some response.body else w.bulk x,
    bulkNames :=
      if w.bulkNames.contains (manifestFileName congress) then w.bulkNames
      else w.bulkNames ++ [manifestFileName congress],
    writes := w.writes ++ ["bulk/" ++ manifestFileName congress] }

/-- The loop body of get_bulk_public_laws (get_data_bulk.py lines 68-81):
skip when the manifest already exists, otherwise fetch; persist on status
200 and raise on any other status. -/
def getBulkStep (env : Env) (congress : Nat) (w : World) : World × Option String :=
  if (w.bulk (manifestFileName congress)).isSome then (w, none)
  else
    let wr := call_api env w (bulk_data_endpoint congress)
    if wr.2.status = 200 then (save_public_laws congress wr.2 wr.1, none)
    else (wr.1, some ("Response code " ++ bulk_data_endpoint congress))

/-- get_bulk_public_laws (get_data_bulk.py lines 62-81). -/
def get_bulk_public_laws (env : Env) (w : World) : World × Option String :=
  runSteps (getBulkStep env) congresses w

/-- The congress identifier decoded from a manifest filename
(get_data_bulk.py line 90): f.split("_")[1].split(".")[0].  The [1] index
raises IndexError when the filename has no underscore, hence the Option;
the script uses the decoded value only in a log message. -/
def decodeCongress (f : String) : Option String :=
  match (splitChar '_' f.data).get? 1 with
  | none => none
  | some rest =>
    match (splitChar '.' rest).get? 0 with
    | none => none
    | some c => some (String.mk c)

/-- Persisting one individual law document (get_data_bulk.py lines 116-117),
keyed by the manifest-provided name. -/
def writeInd (name body : String) (w : World) : World :=
  { w with
    ind := fun x => if x = name then some body else w.ind x,
    indNames :=
      if w.indNames.contains name then w.indNames
      else w.indNames ++ [name],
    writes := w.writes ++ ["individual/" ++ name] }

/-- The entry loop body of process_bulk_plaw_file (get_data_bulk.py lines
101-119): skip when the artifact exists, skip when the link is not an XML
link, otherwise fetch; persist on status 200 and raise otherwise. -/
def processLawInfo (env : Env) (info : LawInfo) (w : World) : World × Option String :=
  if (w.ind info.name).isSome then (w, none)
  else if !strEndsWith info.link ".xml" then (w, none)
  else
    let wr := call_api env w info.link
    if wr.2.status = 200 then (writeInd info.name wr.2.body wr.1, none)
    else (wr.1, some ("Response code " ++ info.link))

/-- process_bulk_plaw_file (get_data_bulk.py lines 84-119): decode the
congress from the filename (IndexError on failure, though the value is only
logged), load the manifest body from the bulk cache (FileNotFoundError when
missing), and process every entry of the parsed manifest in order. -/
def process_bulk_plaw_file (env : Env) (f : String) (w : World) : World × Option String :=
  match decodeCongress f with
  | none => (w, some ("IndexError " ++ f))
  | some _ =>
    match w.bulk f with
    | none => (w, some ("FileNotFoundError " ++ f))
    | some body => runSteps (processLawInfo env) (env.parseManifest body) w

/-- get_individual_laws (get_data_bulk.py lines 122-127): apply
process_bulk_plaw_file to every file listed in the bulk cache directory. -/
def get_individual_laws (env : Env) (w : World) : World × Option String :=
  runSteps (process_bulk_plaw_file env) w.bulkNames w

/-- Writing an extracted text artifact (get_data_bulk.py lines 206-210). -/
def writeProcessed (name body : String) (w : World) : World :=
  { w with
    processed := fun x => if x = name then some body else w.processed x,
    writes := w.writes ++ ["processed/" ++ name] }

/-- Deleting a cached raw document (get_data_bulk.py line 136). -/
def removeInd (name : String) (w : World) : World :=
  { w with
    ind := fun x => if x = name then none else w.ind x,
    indNames := w.indNames.filter (fun n => n != name) }

/-- process_individual_law_file (get_data_bulk.py lines 130-210): on a
parse failure delete the raw document and return normally; on success write
the extracted text under the renamed filename.  A missing file is an
uncaught FileNotFoundError (the except clause catches only ParseError). -/
def process_individual_law_file (env : Env) (f : String) (w : World) : World × Option String :=
  match w.ind f with
  | none => (w, some ("FileNotFoundError " ++ f))
  | some body =>
    match env.parseXml body with
    | none => (removeInd f w, none)
    | some root => (writeProcessed (txtName f) (extractText root) w, none)

/-- process_individual_laws (get_data_bulk.py lines 213-218): apply the
extractor to every file listed in the individual cache directory (the
listing is taken once, before the loop, like os.listdir). -/
def process_individual_laws (env : Env) (w : World) : World × Option String :=
  runSteps (process_individual_law_file env) w.indNames w

/-- The main block (get_data_bulk.py lines 221-225): the three stages in
strict order, aborting at the first uncaught exception. -/
def pipeline (env : Env) (w : World) : World × Option String :=
  match get_bulk_public_laws env w with
  | (w1, some e) => (w1, some e)
  | (w1, none) =>
    match get_individual_laws env w1 with
    | (w2, some e) => (w2, some e)
    | (w2, none) => process_individual_laws env w2

/-- Modelled from the spec: the rate limiter protecting call_api is the
third-party pair of decorators sleep_and_retry / limits(calls=1000,
period=3600) (get_data_bulk.py lines 41-42); its implementation is not part
of this repository's sources, so the spec's contract is modelled directly.
Given the nondecreasing arrival times of the successive fetch requests,
rateLimitedCompletion arr n is the completion time (in seconds) of the
n-th request (0-based): the first 1000 requests complete on arrival, and
from then on a request completes no earlier than 3600 seconds after the
completion lying 1000 requests back, the caller being delayed (never
rejected) until that moment. -/
def rateLimitedCompletion (arr : Nat → Nat) (n : Nat) : Nat :=
  if h : 1000 ≤ n then
    max (arr n) (rateLimitedCompletion arr (n - 1000) + 3600)
  else arr n
termination_by n
decreasing_by omega

mutual
/-- Rewrite every tail field of a document by f, leaving tags, texts and
structure unchanged (used to state that tail text is never collected). -/
def mapTails (f : Option String → Option String) : XmlTree → XmlTree
  | .elem tg tx tl ch => XmlTree.elem tg tx (f tl) (mapTailsForest f ch)
/-- mapTails on a list of sibling elements. -/
def mapTailsForest (f : Option String → Option String) : List XmlTree → List XmlTree
  | [] => []
  | c :: cs => mapTails f c :: mapTailsForest f cs
end

mutual
/-- Erase the direct text of every element whose tag is in the exclusion
set (used to state that excluded elements contribute no text). -/
def eraseExcludedTexts : XmlTree → XmlTree
  | .elem tg tx tl ch =>
    XmlTree.elem tg
      (if ignore_sections_prefixed.contains tg then none else tx) tl
      (eraseExcludedTextsForest ch)
/-- eraseExcludedTexts on a list of sibling elements. -/
def eraseExcludedTextsForest : List XmlTree → List XmlTree
  | [] => []
  | c :: cs => eraseExcludedTexts c :: eraseExcludedTextsForest cs
end

/-- An entry is covered when stage 2 will skip it: its artifact already
exists, or its link is not an XML link. -/
def covered (w : World) (info : LawInfo) : Prop :=
  (w.ind info.name).isSome = true ∨ strEndsWith info.link ".xml" = false

/-- The extraction of a cached body through the parser (the text the
extractor persists for that body). -/
def extractOf (env : Env) (b : String) : String :=
  match env.parseXml b with
  | some root => extractText root
  | none => ""

/-- The accumulated effect of stage 3 on the processed map when every
visited body parses: each listed file writes its extraction under its
renamed filename, later writes shadowing earlier ones. -/
def papply (env : Env) (ind : String → Option String) :
    List String → (String → Option String) → (String → Option String)
  | [], p => p
  | n :: ns, p =>
    papply env ind ns
      (fun x => if x = txtName n then some (extractOf env ((ind n).getD "")) else p x)

/-- The last write landing on a given output filename during a stage-3
pass over the listed files. -/
def lastHit (env : Env) (ind : String → Option String) :
    List String → String → Option String
  | [], _ => none
  | n :: ns, x =>
    match lastHit env ind ns x with
    | some v => some v
    | none =>
      if x = txtName n then some (extractOf env ((ind n).getD "")) else none

/-- A concrete document whose collected text sequence has the marker at
index 1: used as the C1 witness input. -/
def c1Tree : XmlTree :=
  XmlTree.elem "law" (some "A") none
    [XmlTree.elem "heading" (some "Legislative History") none [],
     XmlTree.elem "p" (some "B") none []]

/-- A concrete two-element document: a substantive root element and a
Dublin Core creator child, which is in the exclusion set. -/
def c2Tree : XmlTree :=
  XmlTree.elem "law" (some "Keep me") (some "tail one")
    [XmlTree.elem "\x7bhttp://purl.org/dc/elements/1.1/\x7dcreator"
       (some "United States Government Publishing Office") (some "tail two") []]

/-- A concrete document whose collected text sequence is the spec's C8
scenario sequence. -/
def c8Tree : XmlTree :=
  XmlTree.elem "law" (some "SEC. 1.") none
    [XmlTree.elem "p" (some "This Act may be cited...") none [],
     XmlTree.elem "heading" (some "LEGISLATIVE HISTORY") none [],
     XmlTree.elem "p" (some "House Reports: No. 1") none []]

/-- The empty starting world for the concrete pipeline scenarios. -/
def emptyWorld : World :=
  { bulk := fun _ => none, bulkNames := [], ind := fun _ => none,
    indNames := [], processed := fun _ => none, fetched := [], writes := [] }

/-- Transport and parser stubs for the C7 witness scenario: one manifest
entry, every fetch succeeds, every body parses. -/
def c7wEnv : Env :=
  { net := fun u =>
      if u = bulk_data_endpoint 113 then ⟨200, "M113"⟩ else ⟨200, "EMPTY"⟩,
    parseManifest := fun b =>
      if b = "M113" then [⟨"good.xml", "https://x/good.xml"⟩] else [],
    parseXml := fun _ => some (XmlTree.elem "t" (some "hello") none []) }

/-- Transport and parser stubs for the C7 counterexample: congress 113's
manifest lists one well-formed and one malformed document, every other
manifest is empty, every fetch succeeds. -/
def c7Env : Env :=
  { net := fun u =>
      if u = "https://x/good.xml" then ⟨200, "GOOD"⟩
      else if u = "https://x/bad.xml" then ⟨200, "BAD"⟩
      else if u = bulk_data_endpoint 113 then ⟨200, "M113"⟩
      else ⟨200, "EMPTY"⟩,
    parseManifest := fun b =>
      if b = "M113" then
        [⟨"good.xml", "https://x/good.xml"⟩, ⟨"bad.xml", "https://x/bad.xml"⟩]
      else [],
    parseXml := fun b =>
      if b = "GOOD" then some (XmlTree.elem "t" (some "hello") none []) else none }

/-- Transport and parser stubs for the C9 scenario: a document cached
under the doubled name a.xml.xml whose body parses successfully. -/
def c9Env : Env :=
  { net := fun _ => ⟨200, ""⟩,
    parseManifest := fun _ => [],
    parseXml := fun _ => some (XmlTree.elem "t" (some "hello") none []) }

/-- The world holding the successfully parsed document a.xml.xml. -/
def c9World : World :=
  { bulk := fun _ => none, bulkNames := [],
    ind := fun x => if x = "a.xml.xml" then some "X" else none,
    indNames := ["a.xml.xml"], processed := fun _ => none,
    fetched := [], writes := [] }

/-- Unfolding equation for the pipeline. -/
theorem pipeline_rw (env : Env) (w : World) :
    pipeline env w =
      match get_bulk_public_laws env w with
      | (w1, some e) => (w1, some e)
      | (w1, none) =>
        match get_individual_laws env w1 with
        | (w2, some e) => (w2, some e)
        | (w2, none) => process_individual_laws env w2 := rfl

/-- C1: when the collected text sequence has its first case-insensitive
match of "LEGISLATIVE HISTORY" at index i, the output keeps exactly the
entries strictly before i when i is non-zero, and keeps the whole sequence
(no truncation) when i = 0, reproducing the falsy-index guard of the
source. -/
theorem c1_truncation (root : XmlTree) (i : Nat)
    (h : legislativeHistoryIndex (collectTexts root) = some i) :
    (i ≠ 0 →
      truncateAtLegislativeHistory (collectTexts root) = (collectTexts root).take i ∧
      extractText root = String.intercalate "\n" ((collectTexts root).take i)) ∧
    (i = 0 →
      truncateAtLegislativeHistory (collectTexts root) = collectTexts root ∧
      extractText root = String.intercalate "\n" (collectTexts root)) := by
  simp only [extractText, truncateAtLegislativeHistory, h]
  constructor
  · intro h0
    simp [h0]
  · intro h0
    simp [h0]

/-- C1 witness: the concrete document c1Tree has the marker at index 1 and
its output is the one-entry prefix. -/
theorem c1_truncation_witness :
    legislativeHistoryIndex (collectTexts c1Tree) = some 1 ∧
    truncateAtLegislativeHistory (collectTexts c1Tree) = (collectTexts c1Tree).take 1 ∧
    extractText c1Tree = String.intercalate "\n" ((collectTexts c1Tree).take 1) := by
  refine ⟨by decide, ?_⟩
  exact (c1_truncation c1Tree 1 (by decide)).1 (by decide)

/-- C4: a manifest entry whose link does not end in ".xml" is skipped: the
entry step leaves the state unchanged (so no fetch is logged and no cache
artifact is created) and returns no error, and removing such an entry from
a manifest does not change the processing of the other entries. -/
theorem c4_skip_nonxml (env : Env) (info : LawInfo)
    (h : strEndsWith info.link ".xml" = false) :
    (∀ w, processLawInfo env info w = (w, none)) ∧
    (∀ w es1 es2,
      runSteps (processLawInfo env) (es1 ++ info :: es2) w =
        runSteps (processLawInfo env) (es1 ++ es2) w) := by
  have h1 : ∀ w, processLawInfo env info w = (w, none) := by
    intro w
    unfold processLawInfo
    rw [h]
    by_cases hx : (w.ind info.name).isSome
    · rw [if_pos hx]
    · rw [if_neg hx]
      rfl
  refine ⟨h1, ?_⟩
  intro w es1 es2
  induction es1 generalizing w with
  | nil =>
    simp only [List.nil_append, runSteps, h1 w]
  | cons a as ih =>
    simp only [List.cons_append, runSteps]
    cases hfa : processLawInfo env a w with
    | mk w1 err =>
      cases err with
      | none => exact ih w1
      | some e => rfl

/-- C4 witness: the spec scenario entry report.pdf is skipped on a concrete
world, and dropping it from a two-entry manifest leaves processing of the
other entry unchanged. -/
theorem c4_skip_nonxml_witness :
    strEndsWith "https://x/report.pdf" ".xml" = false ∧
    processLawInfo
        { net := fun _ => ⟨200, "B"⟩, parseManifest := fun _ => [],
          parseXml := fun _ => none }
        ⟨"report.pdf", "https://x/report.pdf"⟩
        { bulk := fun _ => none, bulkNames := [], ind := fun _ => none,
          indNames := [], processed := fun _ => none, fetched := [], writes := [] } =
      ({ bulk := fun _ => none, bulkNames := [], ind := fun _ => none,
         indNames := [], processed := fun _ => none, fetched := [], writes := [] }, none) := by
  refine ⟨by decide, ?_⟩
  exact (c4_skip_nonxml
    { net := fun _ => ⟨200, "B"⟩, parseManifest := fun _ => [],
      parseXml := fun _ => none }
    ⟨"report.pdf", "https://x/report.pdf"⟩ (by decide)).1
    { bulk := fun _ => none, bulkNames := [], ind := fun _ => none,
      indNames := [], processed := fun _ => none, fetched := [], writes := [] }

/-- C5: on a cached document whose body fails to parse, the extractor
deletes exactly that raw cache artifact, produces no text output, performs
no fetch, and returns without an error, so the driver continues with the
remaining files. -/
theorem c5_malformed (env : Env) (f body : String) (w : World)
    (hb : w.ind f = some body) (hp : env.parseXml body = none) :
    process_individual_law_file env f w = (removeInd f w, none) ∧
    (removeInd f w).ind f = none ∧
    (∀ x, x ≠ f → (removeInd f w).ind x = w.ind x) ∧
    (removeInd f w).processed = w.processed ∧
    (removeInd f w).fetched = w.fetched ∧
    (removeInd f w).bulk = w.bulk ∧
    (∀ rest, runSteps (process_individual_law_file env) (f :: rest) w =
      runSteps (process_individual_law_file env) rest (removeInd f w)) := by
  have h1 : process_individual_law_file env f w = (removeInd f w, none) := by
    simp only [process_individual_law_file, hb, hp]
  refine ⟨h1, ?_, ?_, rfl, rfl, rfl, ?_⟩
  · simp [removeInd]
  · intro x hx
    simp [removeInd, hx]
  · intro rest
    simp only [runSteps, h1]

/-- C5 witness: a concrete malformed cached document is deleted and the
run continues with no output and no error. -/
theorem c5_malformed_witness :
    ({ bulk := fun _ => none, bulkNames := [],
       ind := fun x => if x = "bad.xml" then some "NOTXML" else none,
       indNames := ["bad.xml"], processed := fun _ => none,
       fetched := [], writes := [] } : World).ind "bad.xml" = some "NOTXML" ∧
    process_individual_law_file
        { net := fun _ => ⟨200, "B"⟩, parseManifest := fun _ => [],
          parseXml := fun _ => none } "bad.xml"
        { bulk := fun _ => none, bulkNames := [],
          ind := fun x => if x = "bad.xml" then some "NOTXML" else none,
          indNames := ["bad.xml"], processed := fun _ => none,
          fetched := [], writes := [] } =
      (removeInd "bad.xml"
        { bulk := fun _ => none, bulkNames := [],
          ind := fun x => if x = "bad.xml" then some "NOTXML" else none,
          indNames := ["bad.xml"], processed := fun _ => none,
          fetched := [], writes := [] }, none) := by
  refine ⟨by decide, ?_⟩
  exact (c5_malformed
    { net := fun _ => ⟨200, "B"⟩, parseManifest := fun _ => [],
      parseXml := fun _ => none } "bad.xml" "NOTXML"
    { bulk := fun _ => none, bulkNames := [],
      ind := fun x => if x = "bad.xml" then some "NOTXML" else none,
      indNames := ["bad.xml"], processed := fun _ => none,
      fetched := [], writes := [] } (by decide) rfl).1

/-- C8: for a successfully parsed document the extractor persists, under
the renamed filename, the surviving collected segments joined with single
newline separators; and on the spec's scenario sequence the truncation
plus join yields exactly "SEC. 1.\nThis Act may be cited...". -/
theorem c8_join_and_persist (env : Env) (f body : String) (w : World) (root : XmlTree)
    (hb : w.ind f = some body) (hp : env.parseXml body = some root) :
    (process_individual_law_file env f w).1.processed (txtName f) =
      some (String.intercalate "\n" (truncateAtLegislativeHistory (collectTexts root))) ∧
    (process_individual_law_file env f w).2 = none ∧
    truncateAtLegislativeHistory
        ["SEC. 1.", "This Act may be cited...", "LEGISLATIVE HISTORY",
         "House Reports: No. 1"] =
      ["SEC. 1.", "This Act may be cited..."] ∧
    String.intercalate "\n" ["SEC. 1.", "This Act may be cited..."] =
      "SEC. 1.\nThis Act may be cited..." := by
  simp only [process_individual_law_file, hb, hp]
  refine ⟨?_, by trivial, by decide, by decide⟩
  simp [writeProcessed, extractText]

/-- C8 witness: the scenario document c8Tree is extracted and persisted as
the two-segment joined text. -/
theorem c8_join_and_persist_witness :
    ({ bulk := fun _ => none, bulkNames := [],
       ind := fun x => if x = "plaw-115publ1.xml" then some "B" else none,
       indNames := ["plaw-115publ1.xml"], processed := fun _ => none,
       fetched := [], writes := [] } : World).ind "plaw-115publ1.xml" = some "B" ∧
    (process_individual_law_file
        { net := fun _ => ⟨200, ""⟩, parseManifest := fun _ => [],
          parseXml := fun _ => some c8Tree } "plaw-115publ1.xml"
        { bulk := fun _ => none, bulkNames := [],
          ind := fun x => if x = "plaw-115publ1.xml" then some "B" else none,
          indNames := ["plaw-115publ1.xml"], processed := fun _ => none,
          fetched := [], writes := [] }).1.processed (txtName "plaw-115publ1.xml") =
      some (String.intercalate "\n"
        (truncateAtLegislativeHistory (collectTexts c8Tree))) := by
  refine ⟨by decide, ?_⟩
  exact (c8_join_and_persist
    { net := fun _ => ⟨200, ""⟩, parseManifest := fun _ => [],
      parseXml := fun _ => some c8Tree } "plaw-115publ1.xml" "B"
    { bulk := fun _ => none, bulkNames := [],
      ind := fun x => if x = "plaw-115publ1.xml" then some "B" else none,
      indNames := ["plaw-115publ1.xml"], processed := fun _ => none,
      fetched := [], writes := [] } c8Tree (by decide) rfl).1

/-- C6: in both fetch stages, a response status other than 200 raises (the
step returns an error, with only the fetch logged and nothing persisted to
any cache), the loop halts at that error and a stage-1 error aborts the
whole pipeline, while a 200 response persists the body verbatim to the
corresponding cache path. -/
theorem c6_failfast (env : Env) (w : World) :
    (∀ c, (w.bulk (manifestFileName c)).isSome = false →
      (env.net (bulk_data_endpoint c)).status ≠ 200 →
      getBulkStep env c w =
        ({ w with fetched := w.fetched ++ [bulk_data_endpoint c] },
         some ("Response code " ++ bulk_data_endpoint c)) ∧
      ({ w with fetched := w.fetched ++ [bulk_data_endpoint c] } : World).bulk = w.bulk ∧
      ({ w with fetched := w.fetched ++ [bulk_data_endpoint c] } : World).ind = w.ind ∧
      ({ w with fetched := w.fetched ++ [bulk_data_endpoint c] } : World).writes = w.writes) ∧
    (∀ c, (w.bulk (manifestFileName c)).isSome = false →
      (env.net (bulk_data_endpoint c)).status = 200 →
      getBulkStep env c w =
        (save_public_laws c (env.net (bulk_data_endpoint c))
          { w with fetched := w.fetched ++ [bulk_data_endpoint c] }, none) ∧
      (save_public_laws c (env.net (bulk_data_endpoint c))
          { w with fetched := w.fetched ++ [bulk_data_endpoint c] }).bulk
          (manifestFileName c) = some (env.net (bulk_data_endpoint c)).body) ∧
    (∀ info, (w.ind info.name).isSome = false →
      strEndsWith info.link ".xml" = true →
      (env.net info.link).status ≠ 200 →
      processLawInfo env info w =
        ({ w with fetched := w.fetched ++ [info.link] },
         some ("Response code " ++ info.link)) ∧
      ({ w with fetched := w.fetched ++ [info.link] } : World).ind = w.ind ∧
      ({ w with fetched := w.fetched ++ [info.link] } : World).writes = w.writes) ∧
    (∀ info, (w.ind info.name).isSome = false →
      strEndsWith info.link ".xml" = true →
      (env.net info.link).status = 200 →
      processLawInfo env info w =
        (writeInd info.name (env.net info.link).body
          { w with fetched := w.fetched ++ [info.link] }, none) ∧
      (writeInd info.name (env.net info.link).body
          { w with fetched := w.fetched ++ [info.link] }).ind info.name =
        some (env.net info.link).body) ∧
    (∀ c cs w1 e, getBulkStep env c w = (w1, some e) →
      runSteps (getBulkStep env) (c :: cs) w = (w1, some e)) ∧
    (∀ info es w1 e, processLawInfo env info w = (w1, some e) →
      runSteps (processLawInfo env) (info :: es) w = (w1, some e)) ∧
    (∀ w1 e, get_bulk_public_laws env w = (w1, some e) →
      pipeline env w = (w1, some e)) := by
  refine ⟨?_, ?_, ?_, ?_, ?_, ?_, ?_⟩
  · intro c hex h200
    refine ⟨?_, rfl, rfl, rfl⟩
    simp [getBulkStep, call_api, hex, h200]
  · intro c hex h200
    refine ⟨?_, ?_⟩
    · simp [getBulkStep, call_api, hex, h200]
    · simp [save_public_laws]
  · intro info hex hxml h200
    refine ⟨?_, rfl, rfl⟩
    simp [processLawInfo, call_api, hex, hxml, h200]
  · intro info hex hxml h200
    refine ⟨?_, ?_⟩
    · simp [processLawInfo, call_api, hex, hxml, h200]
    · simp [writeInd]
  · intro c cs w1 e hstep
    simp only [runSteps, hstep]
  · intro info es w1 e hstep
    simp only [runSteps, hstep]
  · intro w1 e hstage
    rw [pipeline_rw, hstage]

/-- C6 witness: with a transport that answers 404 everywhere, the concrete
manifest fetch for congress 113 errors out without persisting anything and
the stage-1 loop halts there. -/
theorem c6_failfast_witness :
    (({ bulk := fun _ => none, bulkNames := [], ind := fun _ => none,
        indNames := [], processed := fun _ => none, fetched := [],
        writes := [] } : World).bulk (manifestFileName 113)).isSome = false ∧
    (({ net := fun _ => ⟨404, "missing"⟩, parseManifest := fun _ => [],
        parseXml := fun _ => none } : Env).net (bulk_data_endpoint 113)).status ≠ 200 ∧
    getBulkStep
        { net := fun _ => ⟨404, "missing"⟩, parseManifest := fun _ => [],
          parseXml := fun _ => none } 113
        { bulk := fun _ => none, bulkNames := [], ind := fun _ => none,
          indNames := [], processed := fun _ => none, fetched := [], writes := [] } =
      ({ bulk := fun _ => none, bulkNames := [], ind := fun _ => none,
         indNames := [], processed := fun _ => none,
         fetched := [] ++ [bulk_data_endpoint 113], writes := [] },
       some ("Response code " ++ bulk_data_endpoint 113)) := by
  refine ⟨by decide, by decide, ?_⟩
  exact ((c6_failfast
    { net := fun _ => ⟨404, "missing"⟩, parseManifest := fun _ => [],
      parseXml := fun _ => none }
    { bulk := fun _ => none, bulkNames := [], ind := fun _ => none,
      indNames := [], processed := fun _ => none, fetched := [], writes := [] }).1
    113 (by decide) (by decide)).1

/-- C10: stage 2 keys its cache solely by the entry name.  (a) Processing a
manifest file depends only on the manifest body stored under the filename,
never on the congress decoded from the filename; (b) an entry whose name is
already cached is skipped with no fetch and an unchanged world, whichever
manifest it came from; (c) a fetched entry is stored under exactly its
name. -/
theorem c10_name_keyed (env : Env) :
    (∀ w f1 f2 b, w.bulk f1 = some b → w.bulk f2 = some b →
      (decodeCongress f1).isSome → (decodeCongress f2).isSome →
      process_bulk_plaw_file env f1 w = process_bulk_plaw_file env f2 w) ∧
    (∀ w info, (w.ind info.name).isSome →
      processLawInfo env info w = (w, none)) ∧
    (∀ w info, w.ind info.name = none →
      strEndsWith info.link ".xml" = true →
      (env.net info.link).status = 200 →
      (processLawInfo env info w).1.ind info.name = some (env.net info.link).body) := by
  refine ⟨?_, ?_, ?_⟩
  · intro w f1 f2 b hb1 hb2 h1 h2
    rcases hd1 : decodeCongress f1 with _ | c1
    · rw [hd1] at h1
      simp at h1
    · rcases hd2 : decodeCongress f2 with _ | c2
      · rw [hd2] at h2
        simp at h2
      · simp only [process_bulk_plaw_file, hd1, hd2, hb1, hb2]
  · intro w info hex
    simp [processLawInfo, hex]
  · intro w info hex hxml h200
    simp [processLawInfo, call_api, hex, hxml, h200, writeInd]

/-- C10 witness: two manifests for different congresses list the same entry
name; the cached entry is skipped with no fetch, and processing either
manifest file gives the same result. -/
theorem c10_name_keyed_witness :
    processLawInfo
        { net := fun _ => ⟨200, "B"⟩, parseManifest := fun _ => [⟨"dup.xml", "https://x/dup.xml"⟩],
          parseXml := fun _ => none }
        ⟨"dup.xml", "https://x/dup.xml"⟩
        { bulk := fun x => if x = "plaw_115.json" then some "M"
            else if x = "plaw_116.json" then some "M" else none,
          bulkNames := ["plaw_115.json", "plaw_116.json"],
          ind := fun x => if x = "dup.xml" then some "B" else none,
          indNames := ["dup.xml"], processed := fun _ => none,
          fetched := [], writes := [] } =
      ({ bulk := fun x => if x = "plaw_115.json" then some "M"
           else if x = "plaw_116.json" then some "M" else none,
         bulkNames := ["plaw_115.json", "plaw_116.json"],
         ind := fun x => if x = "dup.xml" then some "B" else none,
         indNames := ["dup.xml"], processed := fun _ => none,
         fetched := [], writes := [] }, none) ∧
    process_bulk_plaw_file
        { net := fun _ => ⟨200, "B"⟩, parseManifest := fun _ => [⟨"dup.xml", "https://x/dup.xml"⟩],
          parseXml := fun _ => none } "plaw_115.json"
        { bulk := fun x => if x = "plaw_115.json" then some "M"
            else if x = "plaw_116.json" then some "M" else none,
          bulkNames := ["plaw_115.json", "plaw_116.json"],
          ind := fun x => if x = "dup.xml" then some "B" else none,
          indNames := ["dup.xml"], processed := fun _ => none,
          fetched := [], writes := [] } =
      process_bulk_plaw_file
        { net := fun _ => ⟨200, "B"⟩, parseManifest := fun _ => [⟨"dup.xml", "https://x/dup.xml"⟩],
          parseXml := fun _ => none } "plaw_116.json"
        { bulk := fun x => if x = "plaw_115.json" then some "M"
            else if x = "plaw_116.json" then some "M" else none,
          bulkNames := ["plaw_115.json", "plaw_116.json"],
          ind := fun x => if x = "dup.xml" then some "B" else none,
          indNames := ["dup.xml"], processed := fun _ => none,
          fetched := [], writes := [] } := by
  constructor
  · exact (c10_name_keyed
      { net := fun _ => ⟨200, "B"⟩, parseManifest := fun _ => [⟨"dup.xml", "https://x/dup.xml"⟩],
        parseXml := fun _ => none }).2.1
      { bulk := fun x => if x = "plaw_115.json" then some "M"
          else if x = "plaw_116.json" then some "M" else none,
        bulkNames := ["plaw_115.json", "plaw_116.json"],
        ind := fun x => if x = "dup.xml" then some "B" else none,
        indNames := ["dup.xml"], processed := fun _ => none,
        fetched := [], writes := [] }
      ⟨"dup.xml", "https://x/dup.xml"⟩ (by decide)
  · exact (c10_name_keyed
      { net := fun _ => ⟨200, "B"⟩, parseManifest := fun _ => [⟨"dup.xml", "https://x/dup.xml"⟩],
        parseXml := fun _ => none }).1
      { bulk := fun x => if x = "plaw_115.json" then some "M"
          else if x = "plaw_116.json" then some "M" else none,
        bulkNames := ["plaw_115.json", "plaw_116.json"],
        ind := fun x => if x = "dup.xml" then some "B" else none,
        indNames := ["dup.xml"], processed := fun _ => none,
        fetched := [], writes := [] }
      "plaw_115.json" "plaw_116.json" "M" (by decide) (by decide) (by decide) (by decide)

/-- keepText only examines the tag and the direct text of an element, so
the tail and children fields are irrelevant to it. -/
theorem keepText_tail_irrel (tg : String) (tx a c : Option String)
    (b d : List XmlTree) :
    keepText (XmlTree.elem tg tx a b) = keepText (XmlTree.elem tg tx c d) := rfl

mutual
/-- Rewriting every tail field leaves the collected texts of a tree
unchanged. -/
theorem collect_mapTails_tree (f : Option String → Option String) :
    ∀ t : XmlTree,
      (iterTree (mapTails f t)).filterMap keepText = (iterTree t).filterMap keepText
  | .elem tg tx tl ch => by
    simp only [mapTails, iterTree, List.filterMap_cons]
    rw [keepText_tail_irrel tg tx (f tl) tl (mapTailsForest f ch) ch,
      collect_mapTails_forest f ch]
/-- Rewriting every tail field leaves the collected texts of a forest
unchanged. -/
theorem collect_mapTails_forest (f : Option String → Option String) :
    ∀ ts : List XmlTree,
      (iterForest (mapTailsForest f ts)).filterMap keepText =
        (iterForest ts).filterMap keepText
  | [] => rfl
  | c :: cs => by
    simp only [mapTailsForest, iterForest, List.filterMap_append]
    rw [collect_mapTails_tree f c, collect_mapTails_forest f cs]
end

/-- keepText of an element whose text has been erased when its tag is
excluded agrees with keepText of the original element: an excluded tag
yields none either way, and a non-excluded tag keeps its text. -/
theorem keepText_erase_eq (tg : String) (tx a c : Option String)
    (b d : List XmlTree) :
    keepText (XmlTree.elem tg
        (if ignore_sections_prefixed.contains tg then none else tx) a b) =
      keepText (XmlTree.elem tg tx c d) := by
  by_cases hc : tg ∈ ignore_sections_prefixed
  · simp [keepText, XmlTree.tag, XmlTree.text, hc]
  · simp [keepText, XmlTree.tag, XmlTree.text, hc]

mutual
/-- Erasing the text of every excluded element leaves the collected texts
of a tree unchanged. -/
theorem collect_erase_tree :
    ∀ t : XmlTree,
      (iterTree (eraseExcludedTexts t)).filterMap keepText =
        (iterTree t).filterMap keepText
  | .elem tg tx tl ch => by
    simp only [eraseExcludedTexts, iterTree, List.filterMap_cons]
    rw [keepText_erase_eq tg tx tl tl (eraseExcludedTextsForest ch) ch,
      collect_erase_forest ch]
/-- Erasing the text of every excluded element leaves the collected texts
of a forest unchanged. -/
theorem collect_erase_forest :
    ∀ ts : List XmlTree,
      (iterForest (eraseExcludedTextsForest ts)).filterMap keepText =
        (iterForest ts).filterMap keepText
  | [] => rfl
  | c :: cs => by
    simp only [eraseExcludedTextsForest, iterForest, List.filterMap_append]
    rw [collect_erase_tree c, collect_erase_forest cs]
end

/-- C2: (1) changing every tail field arbitrarily never changes the output
(tail text is never collected); (2) erasing the direct text of every
element whose tag is in the namespace-qualified exclusion set never changes
the output (excluded elements contribute no text); (3) an element of the
document whose tag is excluded is mapped to none by the collection step;
(4) an element whose tag is not excluded and whose direct text is present
and not whitespace-only contributes that text to the output; (5) the
exclusion set is exactly the bare administrative tag names qualified by
each of the three known namespaces. -/
theorem c2_exclusion :
    (∀ f t, collectTexts (mapTails f t) = collectTexts t) ∧
    (∀ t, collectTexts (eraseExcludedTexts t) = collectTexts t) ∧
    (∀ t e, e ∈ iterTree t → e.tag ∈ ignore_sections_prefixed →
      keepText e = none) ∧
    (∀ t e tx, e ∈ iterTree t → e.tag ∉ ignore_sections_prefixed →
      e.text = some tx → strBlank tx = false → tx ∈ collectTexts t) ∧
    (∀ s, s ∈ ignore_sections_prefixed ↔
      ∃ p ∈ nsQualifiers, ∃ b ∈ ignore_sections, s = p ++ b) := by
  refine ⟨?_, ?_, ?_, ?_, ?_⟩
  · intro f t
    exact collect_mapTails_tree f t
  · intro t
    exact collect_erase_tree t
  · intro t e hmem htag
    simp [keepText, htag]
  · intro t e tx hmem htag htext hblank
    have hne : tx ≠ "" := by
      intro h
      rw [h] at hblank
      exact absurd hblank (by decide)
    show tx ∈ (iterTree t).filterMap keepText
    refine List.mem_filterMap.mpr ⟨e, hmem, ?_⟩
    simp [keepText, htag, htext, hne, hblank]
  · intro s
    simp only [ignore_sections_prefixed, List.mem_flatten, List.mem_map]
    constructor
    · rintro ⟨l, ⟨p, hp, rfl⟩, hb⟩
      rcases List.mem_map.mp hb with ⟨b, hbm, rfl⟩
      exact ⟨p, hp, b, hbm, rfl⟩
    · rintro ⟨p, hp, b, hb, rfl⟩
      exact ⟨ignore_sections.map (fun x => p ++ x), ⟨p, hp, rfl⟩,
        List.mem_map.mpr ⟨b, hb, rfl⟩⟩

/-- C2 witness: on the concrete document c2Tree, rewriting tails and
erasing excluded texts leave the output unchanged, the excluded creator
element contributes nothing, and the substantive root text is collected. -/
theorem c2_exclusion_witness :
    collectTexts (mapTails (fun _ => some "CHANGED") c2Tree) = collectTexts c2Tree ∧
    collectTexts (eraseExcludedTexts c2Tree) = collectTexts c2Tree ∧
    keepText (XmlTree.elem "\x7bhttp://purl.org/dc/elements/1.1/\x7dcreator"
       (some "United States Government Publishing Office") (some "tail two") []) = none ∧
    "Keep me" ∈ collectTexts c2Tree := by
  refine ⟨c2_exclusion.1 _ c2Tree, c2_exclusion.2.1 c2Tree, ?_, ?_⟩
  · exact c2_exclusion.2.2.1 c2Tree
      (XmlTree.elem "\x7bhttp://purl.org/dc/elements/1.1/\x7dcreator"
        (some "United States Government Publishing Office") (some "tail two") [])
      (List.Mem.tail _ (List.Mem.head _)) (by decide)
  · exact c2_exclusion.2.2.2.1 c2Tree
      (XmlTree.elem "law" (some "Keep me") (some "tail one")
        [XmlTree.elem "\x7bhttp://purl.org/dc/elements/1.1/\x7dcreator"
          (some "United States Government Publishing Office") (some "tail two") []])
      "Keep me" (List.Mem.head _) (by decide) rfl (by decide)

/-- Unfolding equation for rateLimitedCompletion in plain if-then-else
form. -/
theorem rlc_unfold (arr : Nat → Nat) (n : Nat) :
    rateLimitedCompletion arr n =
      if 1000 ≤ n then max (arr n) (rateLimitedCompletion arr (n - 1000) + 3600)
      else arr n := by
  rw [rateLimitedCompletion]
  by_cases h : 1000 ≤ n
  · rw [dif_pos h, if_pos h]
  · rw [dif_neg h, if_neg h]

/-- A call completes no earlier than it arrives. -/
theorem rlc_ge_arrival (arr : Nat → Nat) : ∀ n, arr n ≤ rateLimitedCompletion arr n := by
  intro n
  rw [rlc_unfold]
  by_cases h : 1000 ≤ n
  · rw [if_pos h]
    exact le_max_left _ _
  · rw [if_neg h]

/-- The gap law: the call 1000 positions later completes at least 3600
seconds after this one does. -/
theorem rlc_gap (arr : Nat → Nat) (n : Nat) :
    rateLimitedCompletion arr n + 3600 ≤ rateLimitedCompletion arr (n + 1000) := by
  rw [rlc_unfold arr (n + 1000), if_pos (by omega : 1000 ≤ n + 1000)]
  have h : n + 1000 - 1000 = n := by omega
  rw [h]
  exact le_max_right _ _

/-- Completion times are monotone in the call index when arrivals are. -/
theorem rlc_mono_le (arr : Nat → Nat) (hmono : ∀ k, arr k ≤ arr (k + 1)) :
    ∀ n m, m ≤ n → rateLimitedCompletion arr m ≤ rateLimitedCompletion arr n := by
  have harr : ∀ a b, a ≤ b → arr a ≤ arr b := fun a b h =>
    monotone_nat_of_le_succ hmono h
  intro n
  induction n using Nat.strong_induction_on with
  | _ n ih =>
    intro m hmn
    rw [rlc_unfold arr m, rlc_unfold arr n]
    by_cases hm : 1000 ≤ m
    · rw [if_pos hm, if_pos (le_trans hm hmn)]
      refine max_le_max (harr m n hmn) ?_
      have h2 : n - 1000 < n := by omega
      exact Nat.add_le_add_right (ih (n - 1000) h2 (m - 1000) (by omega)) 3600
    · rw [if_neg hm]
      by_cases hn : 1000 ≤ n
      · rw [if_pos hn]
        exact le_trans (harr m n hmn) (le_max_left _ _)
      · rw [if_neg hn]
        exact harr m n hmn

/-- C3 (spec-modelled, since the rate limiter is the third-party ratelimit
decorator pair, not code under src/): on the modelled limiter with
nondecreasing arrivals, (1) every call eventually completes, no earlier
than its arrival and never rejected or dropped (the completion function is
total); (2) two calls completing inside one rolling 3600-second window are
fewer than 1000 indices apart, so in particular call n and call n + 1000
(the 1001st call after n) never complete inside one window — the 1001st
call is delayed past the window; (3) any rolling 3600-second window
contains at most 1000 completions. -/
theorem c3_rate_limit (arr : Nat → Nat) (hmono : ∀ k, arr k ≤ arr (k + 1)) :
    (∀ n, arr n ≤ rateLimitedCompletion arr n) ∧
    (∀ w n m, w ≤ rateLimitedCompletion arr n →
      rateLimitedCompletion arr m < w + 3600 → m < n + 1000) ∧
    (∀ w N, ((Finset.range N).filter (fun k =>
        w ≤ rateLimitedCompletion arr k ∧
        rateLimitedCompletion arr k < w + 3600)).card ≤ 1000) := by
  have key2 : ∀ w n m, w ≤ rateLimitedCompletion arr n →
      rateLimitedCompletion arr m < w + 3600 → m < n + 1000 := by
    intro w n m hw hm
    by_contra hcon
    push_neg at hcon
    have h1 := rlc_gap arr n
    have h2 := rlc_mono_le arr hmono m (n + 1000) hcon
    omega
  refine ⟨rlc_ge_arrival arr, key2, ?_⟩
  intro w N
  rcases Finset.eq_empty_or_nonempty ((Finset.range N).filter (fun k =>
      w ≤ rateLimitedCompletion arr k ∧
      rateLimitedCompletion arr k < w + 3600)) with h | h
  · rw [h]
    simp
  · obtain ⟨a, ha, hamin⟩ := Finset.exists_min_image _ id h
    have hsub : (Finset.range N).filter (fun k =>
        w ≤ rateLimitedCompletion arr k ∧
        rateLimitedCompletion arr k < w + 3600) ⊆ Finset.Ico a (a + 1000) := by
      intro k hk
      have h1 : a ≤ k := hamin k hk
      have hkS := (Finset.mem_filter.mp hk).2
      have haS := (Finset.mem_filter.mp ha).2
      exact Finset.mem_Ico.mpr ⟨h1, key2 w a k haS.1 hkS.2⟩
    calc ((Finset.range N).filter (fun k =>
        w ≤ rateLimitedCompletion arr k ∧
        rateLimitedCompletion arr k < w + 3600)).card
        ≤ (Finset.Ico a (a + 1000)).card := Finset.card_le_card hsub
      _ ≤ 1000 := by simp [Nat.card_Ico]

/-- C3 witness: with identity arrivals, call 5 completes no earlier than
its arrival, and applying the window law at the window starting exactly at
call 600's completion shows calls completing there are below index 1600. -/
theorem c3_rate_limit_witness :
    (fun k : Nat => k) 5 ≤ rateLimitedCompletion (fun k => k) 5 ∧
    (600 : Nat) < 600 + 1000 := by
  constructor
  · exact (c3_rate_limit (fun k => k) (fun k => Nat.le_succ k)).1 5
  · exact (c3_rate_limit (fun k => k) (fun k => Nat.le_succ k)).2.1
      (rateLimitedCompletion (fun k => k) 600) 600 600 (le_refl _) (by omega)

/-- Unfolding equation for runSteps on a cons cell. -/
theorem runSteps_cons {α : Type} (f : α → World → World × Option String)
    (a : α) (as : List α) (w : World) :
    runSteps f (a :: as) w =
      match f a w with
      | (w1, none) => runSteps f as w1
      | (w1, some e) => (w1, some e) := rfl

/-- A successful step continues the loop from its result state. -/
theorem runSteps_cons_ok {α : Type} (f : α → World → World × Option String)
    (a : α) (as : List α) (w w1 : World) (h : f a w = (w1, none)) :
    runSteps f (a :: as) w = runSteps f as w1 := by
  rw [runSteps_cons, h]

/-- A failing step aborts the loop with its error. -/
theorem runSteps_cons_err {α : Type} (f : α → World → World × Option String)
    (a : α) (as : List α) (w w1 : World) (e : String) (h : f a w = (w1, some e)) :
    runSteps f (a :: as) w = (w1, some e) := by
  rw [runSteps_cons, h]

/-- Stage 1 skip law: when every congress in the list already has its
manifest cached, the loop is an identity with no error. -/
theorem stage1_skip (env : Env) :
    ∀ cs w, (∀ c ∈ cs, (w.bulk (manifestFileName c)).isSome) →
      runSteps (getBulkStep env) cs w = (w, none) := by
  intro cs
  induction cs with
  | nil => intro w h; rfl
  | cons c cs ih =>
    intro w h
    have hc := h c (List.mem_cons_self c cs)
    have hstep : getBulkStep env c w = (w, none) := by
      simp [getBulkStep, hc]
    rw [runSteps_cons_ok (getBulkStep env) c cs w w hstep]
    exact ih w (fun d hd => h d (List.mem_cons_of_mem c hd))

/-- What one stage-1 step guarantees: cached manifests persist, the other
cache directories are untouched, and a successful step leaves the manifest
for its congress in place. -/
theorem stage1_step_props (env : Env) (c : Nat) (w w1 : World) (e : Option String)
    (h : getBulkStep env c w = (w1, e)) :
    (∀ k, (w.bulk k).isSome → (w1.bulk k).isSome) ∧
    (e = none → (w1.bulk (manifestFileName c)).isSome) ∧
    w1.ind = w.ind ∧ w1.indNames = w.indNames ∧ w1.processed = w.processed := by
  by_cases hex : (w.bulk (manifestFileName c)).isSome
  · rw [getBulkStep, if_pos hex] at h
    injection h with h1 h2
    subst h1
    exact ⟨fun k hk => hk, fun _ => hex, rfl, rfl, rfl⟩
  · rw [getBulkStep, if_neg hex] at h
    by_cases h200 : (call_api env w (bulk_data_endpoint c)).2.status = 200
    · rw [if_pos h200] at h
      injection h with h1 h2
      subst h1
      subst h2
      refine ⟨?_, ?_, rfl, rfl, rfl⟩
      · intro k hk
        by_cases hkey : k = manifestFileName c
        · simp [save_public_laws, call_api, hkey]
        · simpa [save_public_laws, call_api, hkey] using hk
      · intro _
        simp [save_public_laws, call_api]
    · rw [if_neg h200] at h
      injection h with h1 h2
      subst h1
      subst h2
      refine ⟨fun k hk => hk, ?_, rfl, rfl, rfl⟩
      intro hcon
      exact absurd hcon (by simp)

/-- Stage 1 loop invariants on a successful run: every congress in the
list ends with a cached manifest, cached manifests persist, and the
individual and processed caches are untouched. -/
theorem stage1_post (env : Env) :
    ∀ cs w w1, runSteps (getBulkStep env) cs w = (w1, none) →
      (∀ c ∈ cs, (w1.bulk (manifestFileName c)).isSome) ∧
      (∀ k, (w.bulk k).isSome → (w1.bulk k).isSome) ∧
      w1.ind = w.ind ∧ w1.indNames = w.indNames ∧ w1.processed = w.processed := by
  intro cs
  induction cs with
  | nil =>
    intro w w1 h
    have h2 : ((w, none) : World × Option String) = (w1, none) := h
    injection h2 with h3 h4
    subst h3
    exact ⟨fun c hc => absurd hc (List.not_mem_nil c), fun k hk => hk, rfl, rfl, rfl⟩
  | cons c cs ih =>
    intro w w1 h
    rcases hstep : getBulkStep env c w with ⟨w2, e2⟩
    cases e2 with
    | some e =>
      rw [runSteps_cons_err (getBulkStep env) c cs w w2 e hstep] at h
      injection h with h3 h4
      exact absurd h4 (by simp)
    | none =>
      rw [runSteps_cons_ok (getBulkStep env) c cs w w2 hstep] at h
      obtain ⟨hmono2, hself, hind2, hindn2, hproc2⟩ :=
        stage1_step_props env c w w2 none hstep
      obtain ⟨hall, hmono, hind, hindn, hproc⟩ := ih w2 w1 h
      refine ⟨?_, fun k hk => hmono k (hmono2 k hk),
        hind.trans hind2, hindn.trans hindn2, hproc.trans hproc2⟩
      intro d hd
      cases List.mem_cons.mp hd with
      | inl hdc =>
        subst hdc
        exact hmono _ (hself rfl)
      | inr hdm => exact hall d hdm

/-- A covered entry is skipped: the entry step is an identity. -/
theorem entry_skip (env : Env) (w : World) (info : LawInfo) (h : covered w info) :
    processLawInfo env info w = (w, none) := by
  cases h with
  | inl hl => simp [processLawInfo, hl]
  | inr hr =>
    by_cases hex : (w.ind info.name).isSome
    · simp [processLawInfo, hex]
    · simp [processLawInfo, hex, hr]

/-- What one stage-2 entry step guarantees: cached documents persist, the
bulk and processed caches are untouched, and a successful step covers the
entry. -/
theorem entry_step_props (env : Env) (info : LawInfo) (w w1 : World) (e : Option String)
    (h : processLawInfo env info w = (w1, e)) :
    (∀ k, (w.ind k).isSome → (w1.ind k).isSome) ∧
    (e = none → covered w1 info) ∧
    w1.bulk = w.bulk ∧ w1.bulkNames = w.bulkNames ∧ w1.processed = w.processed := by
  by_cases hex : (w.ind info.name).isSome
  · rw [processLawInfo, if_pos hex] at h
    injection h with h1 h2
    subst h1
    exact ⟨fun k hk => hk, fun _ => Or.inl hex, rfl, rfl, rfl⟩
  · rw [processLawInfo, if_neg hex] at h
    by_cases hxml : strEndsWith info.link ".xml"
    · rw [if_neg (by simp [hxml])] at h
      by_cases h200 : (call_api env w info.link).2.status = 200
      · rw [if_pos h200] at h
        injection h with h1 h2
        subst h1
        refine ⟨?_, ?_, rfl, rfl, rfl⟩
        · intro k hk
          by_cases hkey : k = info.name
          · simp [writeInd, call_api, hkey]
          · simpa [writeInd, call_api, hkey] using hk
        · intro _
          exact Or.inl (by simp [writeInd, call_api])
      · rw [if_neg h200] at h
        injection h with h1 h2
        subst h1
        subst h2
        refine ⟨fun k hk => hk, ?_, rfl, rfl, rfl⟩
        intro hcon
        exact absurd hcon (by simp)
    · rw [if_pos (by simp [hxml])] at h
      injection h with h1 h2
      subst h1
      exact ⟨fun k hk => hk,
        fun _ => Or.inr (by simpa using hxml), rfl, rfl, rfl⟩

/-- Coverage persists along steps that only add cached documents. -/
theorem covered_mono (w w1 : World) (hm : ∀ k, (w.ind k).isSome → (w1.ind k).isSome)
    (info : LawInfo) (h : covered w info) : covered w1 info := by
  cases h with
  | inl hl => exact Or.inl (hm _ hl)
  | inr hr => exact Or.inr hr

/-- Entry loop invariants on a successful pass over a manifest: cached
documents persist, every entry of the manifest ends covered, and the bulk
and processed caches are untouched. -/
theorem entries_fold_props (env : Env) :
    ∀ es w w1, runSteps (processLawInfo env) es w = (w1, none) →
      (∀ k, (w.ind k).isSome → (w1.ind k).isSome) ∧
      (∀ i ∈ es, covered w1 i) ∧
      w1.bulk = w.bulk ∧ w1.bulkNames = w.bulkNames ∧ w1.processed = w.processed := by
  intro es
  induction es with
  | nil =>
    intro w w1 h
    have h2 : ((w, none) : World × Option String) = (w1, none) := h
    injection h2 with h3 h4
    subst h3
    exact ⟨fun k hk => hk, fun i hi => absurd hi (List.not_mem_nil i), rfl, rfl, rfl⟩
  | cons i es ih =>
    intro w w1 h
    rcases hstep : processLawInfo env i w with ⟨w2, e2⟩
    cases e2 with
    | some e =>
      rw [runSteps_cons_err (processLawInfo env) i es w w2 e hstep] at h
      injection h with h3 h4
      exact absurd h4 (by simp)
    | none =>
      rw [runSteps_cons_ok (processLawInfo env) i es w w2 hstep] at h
      obtain ⟨hmono2, hcov2, hb2, hbn2, hp2⟩ := entry_step_props env i w w2 none hstep
      obtain ⟨hmono, hall, hb, hbn, hp⟩ := ih w2 w1 h
      refine ⟨fun k hk => hmono k (hmono2 k hk), ?_,
        hb.trans hb2, hbn.trans hbn2, hp.trans hp2⟩
      intro j hj
      cases List.mem_cons.mp hj with
      | inl hji =>
        subst hji
        exact covered_mono w2 w1 hmono j (hcov2 rfl)
      | inr hjm => exact hall j hjm

/-- A whole covered manifest list is skipped by stage 2. -/
theorem entries_skip (env : Env) :
    ∀ es w, (∀ i ∈ es, covered w i) →
      runSteps (processLawInfo env) es w = (w, none) := by
  intro es
  induction es with
  | nil => intro w h; rfl
  | cons i es ih =>
    intro w h
    rw [runSteps_cons_ok (processLawInfo env) i es w w
      (entry_skip env w i (h i (List.mem_cons_self i es)))]
    exact ih w (fun j hj => h j (List.mem_cons_of_mem i hj))

/-- One covered manifest file is skipped by process_bulk_plaw_file. -/
theorem manifest_skip (env : Env) (w : World) (f b : String)
    (hd : (decodeCongress f).isSome) (hb : w.bulk f = some b)
    (hcov : ∀ i ∈ env.parseManifest b, covered w i) :
    process_bulk_plaw_file env f w = (w, none) := by
  rcases hdc : decodeCongress f with _ | c
  · rw [hdc] at hd
    exact absurd hd (by simp)
  · simp only [process_bulk_plaw_file, hdc, hb]
    exact entries_skip env _ w hcov

/-- What one successful stage-2 manifest pass guarantees. -/
theorem manifest_step_props (env : Env) (f : String) (w w1 : World)
    (h : process_bulk_plaw_file env f w = (w1, none)) :
    (∀ k, (w.ind k).isSome → (w1.ind k).isSome) ∧
    ((decodeCongress f).isSome ∧
      ∃ b, w.bulk f = some b ∧ ∀ i ∈ env.parseManifest b, covered w1 i) ∧
    w1.bulk = w.bulk ∧ w1.bulkNames = w.bulkNames ∧ w1.processed = w.processed := by
  rcases hdc : decodeCongress f with _ | c
  · rw [process_bulk_plaw_file, hdc] at h
    injection h with h1 h2
    exact absurd h2 (by simp)
  · rcases hbf : w.bulk f with _ | b
    · rw [process_bulk_plaw_file, hdc] at h
      have h2 : ((w, some ("FileNotFoundError " ++ f)) : World × Option String) = (w1, none) := by
        rw [hbf] at h
        exact h
      injection h2 with h3 h4
      exact absurd h4 (by simp)
    · rw [process_bulk_plaw_file, hdc] at h
      have h2 : runSteps (processLawInfo env) (env.parseManifest b) w = (w1, none) := by
        rw [hbf] at h
        exact h
      obtain ⟨hm, hcov, hb, hbn, hp⟩ := entries_fold_props env _ w w1 h2
      exact ⟨hm, ⟨by simp [hdc], b, rfl, hcov⟩, hb, hbn, hp⟩

/-- Stage 2 loop invariants on a successful run over a list of manifest
files. -/
theorem stage2_fold_props (env : Env) :
    ∀ fs w w1, runSteps (process_bulk_plaw_file env) fs w = (w1, none) →
      (∀ k, (w.ind k).isSome → (w1.ind k).isSome) ∧
      (∀ f ∈ fs, (decodeCongress f).isSome ∧
        ∃ b, w.bulk f = some b ∧ ∀ i ∈ env.parseManifest b, covered w1 i) ∧
      w1.bulk = w.bulk ∧ w1.bulkNames = w.bulkNames ∧ w1.processed = w.processed := by
  intro fs
  induction fs with
  | nil =>
    intro w w1 h
    have h2 : ((w, none) : World × Option String) = (w1, none) := h
    injection h2 with h3 h4
    subst h3
    exact ⟨fun k hk => hk, fun f hf => absurd hf (List.not_mem_nil f), rfl, rfl, rfl⟩
  | cons f fs ih =>
    intro w w1 h
    rcases hstep : process_bulk_plaw_file env f w with ⟨w2, e2⟩
    cases e2 with
    | some e =>
      rw [runSteps_cons_err (process_bulk_plaw_file env) f fs w w2 e hstep] at h
      injection h with h3 h4
      exact absurd h4 (by simp)
    | none =>
      rw [runSteps_cons_ok (process_bulk_plaw_file env) f fs w w2 hstep] at h
      obtain ⟨hmono2, ⟨hdec2, b, hb2, hcov2⟩, hbk2, hbn2, hp2⟩ :=
        manifest_step_props env f w w2 hstep
      obtain ⟨hmono, hall, hbk, hbn, hp⟩ := ih w2 w1 h
      refine ⟨fun k hk => hmono k (hmono2 k hk), ?_,
        hbk.trans hbk2, hbn.trans hbn2, hp.trans hp2⟩
      intro g hg
      cases List.mem_cons.mp hg with
      | inl hgf =>
        subst hgf
        exact ⟨hdec2, b, hb2, fun i hi => covered_mono w2 w1 hmono i (hcov2 i hi)⟩
      | inr hgm =>
        obtain ⟨hdec3, b3, hb3, hcov3⟩ := hall g hgm
        refine ⟨hdec3, b3, ?_, hcov3⟩
        rw [hbk2] at hb3
        exact hb3

/-- A whole list of covered manifest files is skipped by stage 2. -/
theorem manifests_skip (env : Env) :
    ∀ fs w, (∀ f ∈ fs, (decodeCongress f).isSome ∧
      ∃ b, w.bulk f = some b ∧ ∀ i ∈ env.parseManifest b, covered w i) →
      runSteps (process_bulk_plaw_file env) fs w = (w, none) := by
  intro fs
  induction fs with
  | nil => intro w h; rfl
  | cons f fs ih =>
    intro w h
    obtain ⟨hd, b, hb, hcov⟩ := h f (List.mem_cons_self f fs)
    rw [runSteps_cons_ok (process_bulk_plaw_file env) f fs w w
      (manifest_skip env w f b hd hb hcov)]
    exact ih w (fun g hg => h g (List.mem_cons_of_mem f hg))

/-- Pointwise characterization of papply: an output filename holds its last
write, and an untouched filename keeps its previous content. -/
theorem papply_char (env : Env) (ind : String → Option String) :
    ∀ ns p x, papply env ind ns p x =
      match lastHit env ind ns x with
      | some v => some v
      | none => p x := by
  intro ns
  induction ns with
  | nil => intro p x; rfl
  | cons n ns ih =>
    intro p x
    simp only [papply, lastHit]
    rw [ih]
    cases lastHit env ind ns x with
    | some v => rfl
    | none =>
      by_cases hx : x = txtName n
      · simp [hx]
      · simp [hx]

/-- Replaying the same stage-3 write sequence is the identity on the
processed map: every filename already holds its last write. -/
theorem papply_idem (env : Env) (ind : String → Option String) (ns : List String)
    (p : String → Option String) :
    papply env ind ns (papply env ind ns p) = papply env ind ns p := by
  funext x
  rw [papply_char]
  cases h : lastHit env ind ns x with
  | some v =>
    rw [papply_char, h]
  | none => rfl

/-- Under a parser that succeeds on every body, the extractor step on a
present file only writes the extracted output and its write-log entry. -/
theorem stage3_step_char (env : Env) (hparse : ∀ b, env.parseXml b ≠ none)
    (f : String) (w : World) (b : String) (hb : w.ind f = some b) :
    process_individual_law_file env f w =
      ({ w with
          processed := fun x =>
            if x = txtName f then some (extractOf env ((w.ind f).getD ""))
            else w.processed x,
          writes := w.writes ++ ["processed/" ++ txtName f] }, none) := by
  rcases hroot : env.parseXml b with _ | root
  · exact absurd hroot (hparse b)
  · simp only [process_individual_law_file, hb, hroot, writeProcessed]
    simp [extractOf, hroot]

/-- Under a parser that succeeds on every body, a stage-3 pass over files
that are all present touches only the processed map (by the accumulated
papply writes) and the write log (one entry per file). -/
theorem stage3_fold_char (env : Env) (hparse : ∀ b, env.parseXml b ≠ none) :
    ∀ ns w, (∀ n ∈ ns, (w.ind n).isSome) →
      runSteps (process_individual_law_file env) ns w =
        ({ w with
            processed := papply env w.ind ns w.processed,
            writes := w.writes ++ ns.map (fun n => "processed/" ++ txtName n) }, none) := by
  intro ns
  induction ns with
  | nil =>
    intro w hcons
    show (w, none) =
      ({ w with processed := w.processed, writes := w.writes ++ [] }, none)
    rw [List.append_nil]
  | cons n ns ih =>
    intro w hcons
    have hb : ∃ b, w.ind n = some b := by
      have hs := hcons n (List.mem_cons_self n ns)
      rcases hwn : w.ind n with _ | b
      · rw [hwn] at hs
        exact absurd hs (by simp)
      · exact ⟨b, rfl⟩
    obtain ⟨b, hb⟩ := hb
    rw [runSteps_cons_ok (process_individual_law_file env) n ns w _
      (stage3_step_char env hparse n w b hb)]
    have hcons2 : ∀ m ∈ ns,
        (({ w with
            processed := fun x =>
              if x = txtName n then some (extractOf env ((w.ind n).getD ""))
              else w.processed x,
            writes := w.writes ++ ["processed/" ++ txtName n] } : World).ind m).isSome :=
      fun m hm => hcons m (List.mem_cons_of_mem n hm)
    rw [ih _ hcons2]
    simp [papply, List.append_assoc]

/-- A successful stage-3 run implies every listed file was present when
visited; with a parser succeeding on every body, the listed files were all
present at the start. -/
theorem stage3_ok_consistent (env : Env) (hparse : ∀ b, env.parseXml b ≠ none) :
    ∀ ns w w1, runSteps (process_individual_law_file env) ns w = (w1, none) →
      ∀ n ∈ ns, (w.ind n).isSome := by
  intro ns
  induction ns with
  | nil => intro w w1 h n hn; exact absurd hn (List.not_mem_nil n)
  | cons m ns ih =>
    intro w w1 h n hn
    rcases hm : w.ind m with _ | b
    · have hstep : process_individual_law_file env m w =
          (w, some ("FileNotFoundError " ++ m)) := by
        simp only [process_individual_law_file, hm]
      rw [runSteps_cons_err (process_individual_law_file env) m ns w w
        ("FileNotFoundError " ++ m) hstep] at h
      injection h with h1 h2
      exact absurd h2 (by simp)
    · cases List.mem_cons.mp hn with
      | inl hnm =>
        subst hnm
        rw [hm]
        rfl
      | inr hnm =>
        rw [runSteps_cons_ok (process_individual_law_file env) m ns w _
          (stage3_step_char env hparse m w b hm)] at h
        exact ih _ w1 h n hnm

/-- Inversion of a successful pipeline run into its three stages. -/
theorem pipeline_ok_inversion (env : Env) (w0 wend : World)
    (h : pipeline env w0 = (wend, none)) :
    ∃ wA wB, get_bulk_public_laws env w0 = (wA, none) ∧
      get_individual_laws env wA = (wB, none) ∧
      process_individual_laws env wB = (wend, none) := by
  rw [pipeline_rw] at h
  rcases hA : get_bulk_public_laws env w0 with ⟨wA, eA⟩
  rw [hA] at h
  cases eA with
  | some e =>
    have h2 : ((wA, some e) : World × Option String) = (wend, none) := h
    injection h2 with h3 h4
    exact absurd h4 (by simp)
  | none =>
    have h3 : (match get_individual_laws env wA with
      | (w2, some e) => (w2, some e)
      | (w2, none) => process_individual_laws env w2) = (wend, none) := h
    rcases hB : get_individual_laws env wA with ⟨wB, eB⟩
    rw [hB] at h3
    cases eB with
    | some e =>
      have h4 : ((wB, some e) : World × Option String) = (wend, none) := h3
      injection h4 with h5 h6
      exact absurd h6 (by simp)
    | none =>
      have h4 : process_individual_laws env wB = (wend, none) := h3
      exact ⟨wA, wB, rfl, hB, h4⟩

/-- C7 amended: immediately after a completed run, provided the XML parser
succeeds on every body (so stage 3 deleted nothing), a second run performs
no fetch at all and leaves every cache and output content identical —
stages 1 and 2 skip all their work via the existence checks — but stage 3
does not skip: it re-extracts every cached document, rewriting each output
with identical content (visible as exactly one new write-log entry per
cached document, while the fetch log and all cache contents are unchanged,
since the rerun's final world differs from w1 only in the write log). -/
theorem c7_idempotent_rerun (env : Env) (w0 w1 : World)
    (hparse : ∀ b, env.parseXml b ≠ none)
    (h1 : pipeline env w0 = (w1, none)) :
    get_bulk_public_laws env w1 = (w1, none) ∧
    get_individual_laws env w1 = (w1, none) ∧
    pipeline env w1 =
      ({ w1 with
          writes := w1.writes ++ w1.indNames.map (fun n => "processed/" ++ txtName n) },
       none) := by
  obtain ⟨wA, wB, hA, hB, hC⟩ := pipeline_ok_inversion env w0 w1 h1
  have hA2 : runSteps (getBulkStep env) congresses w0 = (wA, none) := hA
  obtain ⟨hman, _hbmono, _hind1, _hindn1, _hproc1⟩ := stage1_post env congresses w0 wA hA2
  have hB2 : runSteps (process_bulk_plaw_file env) wA.bulkNames wA = (wB, none) := hB
  obtain ⟨hindmono, hcovall, hbulk2, hbn2, hproc2⟩ :=
    stage2_fold_props env wA.bulkNames wA wB hB2
  have hC2 : runSteps (process_individual_law_file env) wB.indNames wB = (w1, none) := hC
  have hcons : ∀ n ∈ wB.indNames, (wB.ind n).isSome :=
    stage3_ok_consistent env hparse wB.indNames wB w1 hC2
  have hchar := stage3_fold_char env hparse wB.indNames wB hcons
  have hw1 : w1 = { wB with
      processed := papply env wB.ind wB.indNames wB.processed,
      writes := wB.writes ++ wB.indNames.map (fun n => "processed/" ++ txtName n) } := by
    have h5 := hC2.symm.trans hchar
    exact congrArg Prod.fst h5
  have hw1ind : w1.ind = wB.ind := by rw [hw1]
  have hw1indN : w1.indNames = wB.indNames := by rw [hw1]
  have hw1bulk : w1.bulk = wB.bulk := by rw [hw1]
  have hw1bn : w1.bulkNames = wB.bulkNames := by rw [hw1]
  have hw1proc : w1.processed = papply env wB.ind wB.indNames wB.processed := by rw [hw1]
  have hmanR : ∀ c ∈ congresses, (w1.bulk (manifestFileName c)).isSome := by
    intro c hc
    rw [hw1bulk, hbulk2]
    exact hman c hc
  have hskip1 : get_bulk_public_laws env w1 = (w1, none) :=
    stage1_skip env congresses w1 hmanR
  have hcovR : ∀ f ∈ w1.bulkNames, (decodeCongress f).isSome ∧
      ∃ b, w1.bulk f = some b ∧ ∀ i ∈ env.parseManifest b, covered w1 i := by
    intro f hf
    rw [hw1bn, hbn2] at hf
    obtain ⟨hdec, b, hbm, hcov⟩ := hcovall f hf
    refine ⟨hdec, b, ?_, ?_⟩
    · rw [hw1bulk, hbulk2]
      exact hbm
    · intro i hi
      cases hcov i hi with
      | inl hl =>
        refine Or.inl ?_
        rw [hw1ind]
        exact hl
      | inr hr => exact Or.inr hr
  have hskip2 : get_individual_laws env w1 = (w1, none) := by
    show runSteps (process_bulk_plaw_file env) w1.bulkNames w1 = (w1, none)
    exact manifests_skip env w1.bulkNames w1 hcovR
  have hconsR : ∀ n ∈ w1.indNames, (w1.ind n).isSome := by
    intro n hn
    rw [hw1ind]
    rw [hw1indN] at hn
    exact hcons n hn
  have hchar2 := stage3_fold_char env hparse w1.indNames w1 hconsR
  have hpro : papply env w1.ind w1.indNames w1.processed = w1.processed := by
    rw [hw1ind, hw1indN, hw1proc]
    exact papply_idem env wB.ind wB.indNames wB.processed
  rw [hpro] at hchar2
  have hs3 : process_individual_laws env w1 =
      ({ w1 with
          writes := w1.writes ++ w1.indNames.map (fun n => "processed/" ++ txtName n) },
       none) := hchar2
  refine ⟨hskip1, hskip2, ?_⟩
  have hgoal : (match get_individual_laws env w1 with
      | (w2, some e) => (w2, some e)
      | (w2, none) => process_individual_laws env w2) =
      ({ w1 with
          writes := w1.writes ++ w1.indNames.map (fun n => "processed/" ++ txtName n) },
       none) := by
    rw [hskip2]
    exact hs3
  rw [pipeline_rw, hskip1]
  exact hgoal

/-- C7 amended witness: on the concrete all-parsing scenario, the first run
completes and the rerun's stage 1 is an identity with no fetch. -/
theorem c7_idempotent_rerun_witness :
    (∀ b, c7wEnv.parseXml b ≠ none) ∧
    pipeline c7wEnv emptyWorld = ((pipeline c7wEnv emptyWorld).1, none) ∧
    get_bulk_public_laws c7wEnv (pipeline c7wEnv emptyWorld).1 =
      ((pipeline c7wEnv emptyWorld).1, none) := by
  have hp : ∀ b, c7wEnv.parseXml b ≠ none := fun b h => Option.noConfusion h
  have h1 : pipeline c7wEnv emptyWorld = ((pipeline c7wEnv emptyWorld).1, none) :=
    Prod.ext rfl (by decide)
  exact ⟨hp, h1, (c7_idempotent_rerun c7wEnv emptyWorld _ hp h1).1⟩

/-- C7 counterexample: after a completed first run on the concrete
scenario (one document malformed, hence deleted by stage 3), the second
run completes but performs a fetch (re-downloading the deleted document)
and performs writes (stage 3 re-extracts instead of skipping), refuting
"performs no fetch calls, with each stage skipping work via an existence
check on its destination artifact". -/
theorem c7_counterexample :
    (pipeline c7Env emptyWorld).2 = none ∧
    (pipeline c7Env (pipeline c7Env emptyWorld).1).2 = none ∧
    (pipeline c7Env (pipeline c7Env emptyWorld).1).1.fetched ≠
      (pipeline c7Env emptyWorld).1.fetched ∧
    (pipeline c7Env (pipeline c7Env emptyWorld).1).1.writes ≠
      (pipeline c7Env emptyWorld).1.writes := by
  refine ⟨by decide, by decide, by decide, by decide⟩

/-- C9 counterexample: the successfully parsed document cached as
a.xml.xml produces its output under a.txt.txt — every occurrence of ".xml"
is replaced, not just the final extension — and no artifact appears under
a.xml.txt, the name the claimed extension-replacement law predicts. -/
theorem c9_counterexample :
    txtName "a.xml.xml" = "a.txt.txt" ∧
    (process_individual_law_file c9Env "a.xml.xml" c9World).2 = none ∧
    (process_individual_law_file c9Env "a.xml.xml" c9World).1.processed
      "a.xml.txt" = none ∧
    (process_individual_law_file c9Env "a.xml.xml" c9World).1.processed
      "a.txt.txt" = some "hello" := by
  refine ⟨by decide, by decide, by decide, by decide⟩

/-- C9 amended: for every successfully parsed cached document, exactly one
output artifact is written, under the source filename with every
occurrence of ".xml" replaced by ".txt" (which coincides with replacing
the final extension whenever ".xml" occurs only as the extension). -/
theorem c9_output_naming (env : Env) (f body : String) (w : World) (root : XmlTree)
    (hb : w.ind f = some body) (hp : env.parseXml body = some root) :
    process_individual_law_file env f w =
      (writeProcessed (txtName f) (extractText root) w, none) ∧
    txtName f = pyReplace f ".xml" ".txt" ∧
    (writeProcessed (txtName f) (extractText root) w).writes =
      w.writes ++ ["processed/" ++ txtName f] ∧
    (writeProcessed (txtName f) (extractText root) w).processed (txtName f) =
      some (extractText root) := by
  refine ⟨?_, rfl, rfl, ?_⟩
  · simp only [process_individual_law_file, hb, hp]
  · simp [writeProcessed]

/-- C9 amended witness: the a.xml.xml document is extracted into exactly
one artifact, keyed by the replace-all name. -/
theorem c9_output_naming_witness :
    c9World.ind "a.xml.xml" = some "X" ∧
    c9Env.parseXml "X" = some (XmlTree.elem "t" (some "hello") none []) ∧
    process_individual_law_file c9Env "a.xml.xml" c9World =
      (writeProcessed (txtName "a.xml.xml")
        (extractText (XmlTree.elem "t" (some "hello") none [])) c9World, none) := by
  refine ⟨by decide, rfl, ?_⟩
  exact (c9_output_naming c9Env "a.xml.xml" "X" c9World
    (XmlTree.elem "t" (some "hello") none []) (by decide) rfl).1
